import Mathlib

/-!
Shallow embedding of the html-to-text renderer (src/lib.rs and
src/ansi_colours.rs) for checking the natural-language specification.

Conventions used throughout:
* Rust `usize` is modelled as `Nat`; truncated `Nat` subtraction models
  `usize::saturating_sub`, and every place where plain `usize` subtraction,
  indexing or division could panic is modelled explicitly with `Option`
  (`none` = the process aborts with a panic / failed assertion).
* `String.length` stands in for Rust `str::len`; all concrete inputs used in
  theorems are ASCII, where the two coincide.
* The lazily-memoized `size_estimate: Option<SizeEstimate>` caches are dropped:
  the tree is immutable after construction, so the cached value always equals
  the recomputed one and the cache is semantically transparent.
* Rust `for` loops are modelled as `List.foldl` / explicit structural
  recursion; `break` is modelled with a flag that freezes the fold state.
-/

/-- Floor constant for leaf min widths (const MIN_WIDTH: usize = 5). -/
def MIN_WIDTH : Nat := 5

/-- Largest usize value (usize::max_value() on a 64-bit target). -/
def USIZE_MAX : Nat := 2 ^ 64 - 1

/-- Size information/estimate (struct SizeEstimate). -/
structure SizeEstimate where
  size : Nat
  min_width : Nat
deriving DecidableEq, Repr

/-- Combine two estimates into one: add sizes, take the widest min_width
(SizeEstimate::add). -/
def SizeEstimate.add (a b : SizeEstimate) : SizeEstimate :=
  ⟨a.size + b.size, max a.min_width b.min_width⟩

mutual

/-- The node-specific information distilled from the DOM
(enum RenderNodeInfo).  The `RenderNode` wrapper only adds the dropped
memoization cache, so the embedding identifies the two. -/
inductive RenderNodeInfo : Type where
  | Text : String → RenderNodeInfo
  | Container : List RenderNodeInfo → RenderNodeInfo
  | Link : String → List RenderNodeInfo → RenderNodeInfo
  | Em : List RenderNodeInfo → RenderNodeInfo
  | Code : List RenderNodeInfo → RenderNodeInfo
  | Img : String → RenderNodeInfo
  | Block : List RenderNodeInfo → RenderNodeInfo
  | Div : List RenderNodeInfo → RenderNodeInfo
  | Pre : String → RenderNodeInfo
  | BlockQuote : List RenderNodeInfo → RenderNodeInfo
  | Ul : List RenderNodeInfo → RenderNodeInfo
  | Ol : List RenderNodeInfo → RenderNodeInfo
  | Break : RenderNodeInfo
  | Table : RenderTable → RenderNodeInfo

/-- Render tree table cell (struct RenderTableCell), minus the dropped
estimate cache: colspan and content. -/
inductive RenderTableCell : Type where
  | mk : Nat → List RenderNodeInfo → RenderTableCell

/-- Render tree table row (struct RenderTableRow). -/
inductive RenderTableRow : Type where
  | mk : List RenderTableCell → RenderTableRow

/-- A table render tree with metadata (struct RenderTable), minus the dropped
estimate cache: rows and num_columns. -/
inductive RenderTable : Type where
  | mk : List RenderTableRow → Nat → RenderTable

end

/-- Projection for RenderTableCell.colspan. -/
def RenderTableCell.colspan : RenderTableCell → Nat
  | .mk sp _ => sp

/-- Projection for RenderTableCell.content. -/
def RenderTableCell.content : RenderTableCell → List RenderNodeInfo
  | .mk _ c => c

/-- Projection for RenderTableRow.cells. -/
def RenderTableRow.cells : RenderTableRow → List RenderTableCell
  | .mk cs => cs

/-- Projection for RenderTable.rows. -/
def RenderTable.rows : RenderTable → List RenderTableRow
  | .mk rs _ => rs

/-- Projection for RenderTable.num_columns. -/
def RenderTable.num_columns : RenderTable → Nat
  | .mk _ n => n

/-- Count the number of cells in the row, taking colspan into account
(RenderTableRow::num_cells). -/
def RenderTableRow.num_cells (r : RenderTableRow) : Nat :=
  (r.cells.map RenderTableCell.colspan).sum

/-- Create a new RenderTable with the given rows (RenderTable::new):
num_columns is the max of each row's colspan-sum, 0 for no rows. -/
def RenderTable.new (rows : List RenderTableRow) : RenderTable :=
  RenderTable.mk rows ((rows.map RenderTableRow.num_cells).foldl max 0)

/-! ### Column aggregation of RenderTable::calc_size_estimate

The source walks rows with a running column number `colno` and for each cell
updates `sizes[colno+colnum]` for `colnum in 0..colspan`:

    sizes[colno + colnum].size += cellsize.size / cell.colspan;
    sizes[colno + colnum].min_width =
        max(sizes[colno+colnum].min_width / cell.colspan, cellsize.min_width);

The functions below operate on rows whose cells were already resolved to
`(colspan, cell size estimate)` pairs; resolution itself (which can fail on a
nested zero-column table) is interleaved in the source, but the observable
`Option` result is the same.  An out-of-range index would panic in Rust and is
modelled as `none`; a colspan of 0 runs the inner loop zero times (no panic,
the slice division is inside the loop body). -/

/-- One in-place update of a column entry by a cell of colspan `sp` in
RenderTable::calc_size_estimate. -/
def colUpdate (sp : Nat) (cs acc : SizeEstimate) : SizeEstimate :=
  ⟨acc.size + cs.size / sp, max (acc.min_width / sp) cs.min_width⟩

/-- Body of the inner loop `for colnum in 0..cell.colspan` of
calc_size_estimate: one in-place column write. -/
def scatStep (sp : Nat) (cs : SizeEstimate) (colno : Nat)
    (s : List SizeEstimate) (k : Nat) : List SizeEstimate :=
  s.set (colno + k) (colUpdate sp cs (s.getD (colno + k) ⟨0, 0⟩))

/-- Inner loop `for colnum in 0..cell.colspan` of calc_size_estimate,
scattering one resolved cell into the per-column vector. -/
def cellScatterR (sp : Nat) (cs : SizeEstimate) (colno : Nat)
    (szs : List SizeEstimate) : Option (List SizeEstimate) :=
  if sp = 0 then some szs
  else if colno + sp ≤ szs.length then
    some ((List.range sp).foldl (scatStep sp cs colno) szs)
  else none

/-- Per-row loop of calc_size_estimate with the running `colno`. -/
def rowScatterGo : Nat → List SizeEstimate → List (Nat × SizeEstimate) →
    Option (List SizeEstimate)
  | _, szs, [] => some szs
  | colno, szs, c :: rest =>
    match cellScatterR c.1 c.2 colno szs with
    | none => none
    | some szs1 => rowScatterGo (colno + c.1) szs1 rest

/-- All-rows loop of calc_size_estimate. -/
def calcColumnsGo : List SizeEstimate → List (List (Nat × SizeEstimate)) →
    Option (List SizeEstimate)
  | szs, [] => some szs
  | szs, row :: rest =>
    match rowScatterGo 0 szs row with
    | none => none
    | some szs1 => calcColumnsGo szs1 rest

/-- Per-column size vector of RenderTable::calc_size_estimate, starting from
`vec![Default::default(); num_columns]`. -/
def calcColumnsR (n : Nat) (rrows : List (List (Nat × SizeEstimate))) :
    Option (List SizeEstimate) :=
  calcColumnsGo (List.replicate n ⟨0, 0⟩) rrows

/-- Totals of RenderTable::calc_size_estimate:
`size = sizes.map(size).sum()` and
`min_width = sizes.map(min_width).sum() + num_columns - 1`, where the final
`- 1` underflows (usize panic, modelled as none) when the sum and the column
count are both zero. -/
def calc_size_estimateR (n : Nat) (rrows : List (List (Nat × SizeEstimate))) :
    Option SizeEstimate :=
  match calcColumnsR n rrows with
  | none => none
  | some szs =>
    let mw := (szs.map SizeEstimate.min_width).sum + n
    if mw = 0 then none
    else some ⟨(szs.map SizeEstimate.size).sum, mw - 1⟩

mutual

/-- Size estimate of a node (RenderNode::get_size_estimate), with `none`
modelling a panic below (a nested table whose min_width total underflows). -/
def nodeEst : RenderNodeInfo → Option SizeEstimate
  | .Text t => some ⟨t.length, MIN_WIDTH⟩
  | .Img t => some ⟨t.length, MIN_WIDTH⟩
  | .Pre t => some ⟨t.length, MIN_WIDTH⟩
  | .Container v => nodesEstAux ⟨0, 0⟩ v
  | .Link _ v => nodesEstAux ⟨0, 0⟩ v
  | .Em v => nodesEstAux ⟨0, 0⟩ v
  | .Code v => nodesEstAux ⟨0, 0⟩ v
  | .Block v => nodesEstAux ⟨0, 0⟩ v
  | .Div v => nodesEstAux ⟨0, 0⟩ v
  | .BlockQuote v => nodesEstAux ⟨0, 0⟩ v
  | .Ul v => nodesEstAux ⟨0, 0⟩ v
  | .Ol v => nodesEstAux ⟨0, 0⟩ v
  | .Break => some ⟨1, 1⟩
  | .Table t => RenderTable.calc_size_estimate t

/-- Fold of child estimates with SizeEstimate::add from Default::default()
(`v.iter_mut().map(get_size_estimate).fold(Default::default(), add)`). -/
def nodesEstAux : SizeEstimate → List RenderNodeInfo → Option SizeEstimate
  | acc, [] => some acc
  | acc, n :: rest =>
    match nodeEst n with
    | none => none
    | some e => nodesEstAux (acc.add e) rest

/-- Resolve the cells of one row to (colspan, estimate) pairs
(RenderTableCell::get_size_estimate folds the cell content like a container). -/
def resolveCells : List RenderTableCell → Option (List (Nat × SizeEstimate))
  | [] => some []
  | .mk sp content :: rest =>
    match nodesEstAux ⟨0, 0⟩ content with
    | none => none
    | some e =>
      match resolveCells rest with
      | none => none
      | some rs => some ((sp, e) :: rs)

/-- Resolve every row of a table to (colspan, estimate) pairs. -/
def resolveRows : List RenderTableRow → Option (List (List (Nat × SizeEstimate)))
  | [] => some []
  | .mk cells :: rest =>
    match resolveCells cells with
    | none => none
    | some r =>
      match resolveRows rest with
      | none => none
      | some rs => some (r :: rs)

/-- RenderTable::calc_size_estimate — the value cached by get_size_estimate;
`none` models the usize underflow panic of `... + num_columns - 1`. -/
def RenderTable.calc_size_estimate : RenderTable → Option SizeEstimate
  | .mk rows ncols =>
    match resolveRows rows with
    | none => none
    | some rrows => calc_size_estimateR ncols rrows

end

/-! ### td_to_render_tree and colspan parsing -/

/-- Rust `str::parse::<usize>`: an optional leading '+', then one or more
ASCII digits and nothing else; values above usize::MAX overflow to Err.
('0'.toNat = 48.) -/
def parseUsize (s : String) : Option Nat :=
  let ds := match s.data with
    | '+' :: rest => rest
    | l => l
  if ds.isEmpty then none
  else if ds.all Char.isDigit then
    let v := ds.foldl (fun acc c => acc * 10 + (c.toNat - 48)) 0
    if v ≤ USIZE_MAX then some v else none
  else none

/-- Convert a single table cell to a render node (td_to_render_tree): colspan
starts at 1 and every attribute named "colspan" overwrites it with
`v.parse().unwrap_or(1)`. -/
def td_to_render_tree (attrs : List (String × String))
    (children : List RenderNodeInfo) : RenderTableCell :=
  RenderTableCell.mk
    (attrs.foldl
      (fun colspan attr =>
        if attr.1 = "colspan" then (parseUsize attr.2).getD 1 else colspan)
      1)
    children

/-! ### render_table_tree: column aggregation and the width solver

The aggregation here (lib.rs lines 651-666) differs from calc_size_estimate:
the cell estimate has BOTH fields divided by colspan up front
(`estimate.size /= cell.colspan; estimate.min_width /= cell.colspan`) — so a
colspan of 0 panics on division by zero before any column is touched — and the
divided estimate is combined into each spanned column with SizeEstimate::add. -/

/-- Scatter one resolved cell into col_sizes in render_table_tree. -/
def aggCellR (sp : Nat) (cs : SizeEstimate) (colno : Nat)
    (szs : List SizeEstimate) : Option (List SizeEstimate) :=
  if sp = 0 then none
  else
    let e : SizeEstimate := ⟨cs.size / sp, cs.min_width / sp⟩
    if colno + sp ≤ szs.length then
      some ((List.range sp).foldl
        (fun s i => s.set (colno + i) ((s.getD (colno + i) ⟨0, 0⟩).add e)) szs)
    else none

/-- Per-row loop of the render_table_tree aggregation. -/
def aggRowGo : Nat → List SizeEstimate → List (Nat × SizeEstimate) →
    Option (List SizeEstimate)
  | _, szs, [] => some szs
  | colno, szs, c :: rest =>
    match aggCellR c.1 c.2 colno szs with
    | none => none
    | some szs1 => aggRowGo (colno + c.1) szs1 rest

/-- All-rows loop of the render_table_tree aggregation. -/
def aggGo : List SizeEstimate → List (List (Nat × SizeEstimate)) →
    Option (List SizeEstimate)
  | szs, [] => some szs
  | szs, row :: rest =>
    match aggRowGo 0 szs row with
    | none => none
    | some szs1 => aggGo szs1 rest

/-- Per-column `col_sizes` computed at the top of render_table_tree. -/
def tableColSizes (t : RenderTable) : Option (List SizeEstimate) :=
  match resolveRows t.rows with
  | none => none
  | some rrows => aggGo (List.replicate t.num_columns ⟨0, 0⟩) rrows

/-- Initial column widths of render_table_tree:
`width[i] = 0 if size[i]==0 else max(size[i]*width/tot_size, min_width[i])`. -/
def initWidths (szs : List SizeEstimate) (width : Nat) : List Nat :=
  let tot_size := (szs.map SizeEstimate.size).sum
  szs.map fun sz =>
    if sz.size = 0 then 0 else max (sz.size * width / tot_size) sz.min_width

/-- min_width of column `i` as read by the reduction loop
(`col_sizes[colno].min_width`). -/
def minWidthAt (cs : List SizeEstimate) (i : Nat) : Nat :=
  (cs.getD i ⟨0, 0⟩).min_width

/-- The max_by_key key of the reduction loop for entry (colno, width):
`(width.saturating_sub(col_sizes[colno].min_width), width,
usize::max_value() - colno)`. -/
def key3 (cs : List SizeEstimate) (iw : Nat × Nat) : Nat × Nat × Nat :=
  (iw.2 - minWidthAt cs iw.1, iw.2, USIZE_MAX - iw.1)

/-- Lexicographic ≤ on key triples, as compared by Rust tuple Ord. -/
def lex3Le (a b : Nat × Nat × Nat) : Bool :=
  Nat.blt a.1 b.1 ||
    (Nat.beq a.1 b.1 &&
      (Nat.blt a.2.1 b.2.1 || (Nat.beq a.2.1 b.2.1 && Nat.ble a.2.2 b.2.2)))

/-- `.enumerate()` starting from index k. -/
def enumList : Nat → List α → List (Nat × α)
  | _, [] => []
  | k, x :: xs => (k, x) :: enumList (k + 1) xs

/-- One comparison step of Iterator::max_by_key (ties keep the later
element, matching "the last element is returned"). -/
def pick (cs : List SizeEstimate) (best : Option (Nat × Nat)) (iw : Nat × Nat) :
    Option (Nat × Nat) :=
  match best with
  | none => some iw
  | some b => if lex3Le (key3 cs b) (key3 cs iw) then some iw else some b

/-- `col_widths.iter().cloned().enumerate().max_by_key(...)` of the reduction
loop. -/
def maxByKey (cs : List SizeEstimate) (ws : List Nat) : Option (Nat × Nat) :=
  (enumList 0 ws).foldl (pick cs) none

/-- One iteration of the reduction loop: pick the max-key column and
decrement it (`col_widths[i] -= 1`).  The `none` branch of the unwrap is
unreachable while the loop guard holds (the loop only runs when the widths
sum exceeds `width`, so the list is nonempty). -/
def reduceStep (cs : List SizeEstimate) (ws : List Nat) : List Nat :=
  match maxByKey cs ws with
  | some iw => ws.set iw.1 (ws.getD iw.1 0 - 1)
  | none => ws

/-- The `while col_widths.sum() > width` reduction loop, fuelled: each
iteration lowers the sum by exactly 1, so fuel `ws.sum` always suffices. -/
def reduceLoop (cs : List SizeEstimate) (width : Nat) :
    Nat → List Nat → List Nat
  | 0, ws => ws
  | fuel + 1, ws =>
    if width < ws.sum then reduceLoop cs width fuel (reduceStep cs ws) else ws

/-- The full reduction loop of render_table_tree on initial widths ws. -/
def reduceWidths (cs : List SizeEstimate) (width : Nat) (ws : List Nat) :
    List Nat :=
  reduceLoop cs width ws.sum ws

/-- Column widths of a table immediately after the reduction loop terminates
(before the final `col_widths[last] += 1` fudge). -/
def widthsAfterReduce (t : RenderTable) (width : Nat) : Option (List Nat) :=
  match tableColSizes t with
  | none => none
  | some cs => some (reduceWidths cs width (initWidths cs width))

/-! ### ansi_colours: the annotated control pipeline

`RichAnnotation` itself is declared in the `render::text_renderer` module,
which is not among the sources; the type below is

Modelled from the spec: the Annotation variant list of the data model
(Default, Link(url), Image(src,w,h), Emphasis, Strong, Strikeout, Code,
Preformat(info), Colored(r,g,b), Bell, NoBreakBegin, NoBreakEnd,
RedactedBegin(secret,id), RedactedEnd(id), Custom(tag, values)), with
RedactedEnd given the two fields that the source's match pattern
`RichAnnotation::RedactedEnd(_, id)` requires.  Uuid is an opaque id with
decidable equality, modelled as Nat. -/

/-- Uuid, an opaque identifier (uuid::Uuid). -/
abbrev Uuid : Type := Nat

/-- Modelled from the spec: enum RichAnnotation (see section comment). -/
inductive RichAnn : Type where
  | Default : RichAnn
  | Link : String → RichAnn
  | Image : String → Nat → Nat → RichAnn
  | Emphasis : RichAnn
  | Strong : RichAnn
  | Strikeout : RichAnn
  | Code : RichAnn
  | Preformat : Bool → RichAnn
  | Colored : Nat → Nat → Nat → RichAnn
  | Bell : RichAnn
  | NoBreakBegin : RichAnn
  | NoBreakEnd : RichAnn
  | RedactedBegin : String → Uuid → RichAnn
  | RedactedEnd : String → Uuid → RichAnn
  | Custom : String → List String → RichAnn
deriving DecidableEq, Repr

/-- enum Control of ansi_colours.rs. -/
inductive Control : Type where
  | Default : Control
  | RedactedBegin : String → Uuid → Control
  | RedactedEnd : Uuid → Control
  | Str : String → Control
  | NoBreakBegin : Control
  | NoBreakEnd : Control
  | Image : String → Nat → Nat → Control
  | Bell : String → Control
  | LF : Control
  | StrRedacted : String → Uuid → Control
  | Audio : String → Control
deriving DecidableEq, Repr

/-- A tagged span of rich layout output: the text `s` and its ordered
annotation set `tag` (TaggedString, modelled from the spec's "(text,
annotation-set) spans"; field names follow the source's `ts.s` / `ts.tag`). -/
structure TaggedString where
  s : String
  tag : List RichAnn
deriving DecidableEq, Repr

/-- The caller styling map `FMap: Fn(&RichAnnotation) -> (String, Box<dyn
Fn(&String) -> String>, String)`: (prefix, transform, suffix). -/
abbrev FMap : Type := RichAnn → String × (String → String) × String

/-- Mutable state threaded through just_render: the emitted commands and the
redaction-id stack (head = top = Rust Vec::last). -/
structure RState where
  cmds : List Control
  stack : List Uuid
deriving DecidableEq, Repr

/-- One annotation of the marker scan (`for ann in &ts.tag` in just_render):
given the span text `s`, it updates the (is_marker, state) pair, with `none`
for a failed assert / panicking unwrap. -/
def annStep (s : String) (acc : Bool × RState) (ann : RichAnn) :
    Option (Bool × RState) :=
  match ann with
  | .NoBreakBegin =>
    if s = "" then
      some (true, { acc.2 with cmds := acc.2.cmds ++ [Control.NoBreakBegin] })
    else none
  | .RedactedBegin _ id =>
    if s = "" then some (true, { acc.2 with stack := id :: acc.2.stack })
    else none
  | .Image src w h =>
    if 1 ≤ w * h then
      some (true, { acc.2 with cmds := acc.2.cmds ++ [Control.Image src w h] })
    else some acc
  | .RedactedEnd _ id =>
    if s = "" then
      match acc.2.stack with
      | [] => none
      | top :: rest =>
        if top = id then some (true, { acc.2 with stack := rest }) else none
    else none
  | .NoBreakEnd =>
    if s = "" then
      some (true, { acc.2 with cmds := acc.2.cmds ++ [Control.NoBreakEnd] })
    else none
  | .Custom typ values =>
    if typ = "audio" then
      match values with
      | [] => none
      | v :: _ => some (true, { acc.2 with cmds := acc.2.cmds ++ [Control.Audio v] })
    else some acc
  | _ => some acc

/-- The full marker scan over a span's annotations (is_marker starts false). -/
def scanMarkers (st : RState) (ts : TaggedString) : Option (Bool × RState) :=
  ts.tag.foldlM (annStep ts.s) (false, st)

/-- The non-marker emission path of just_render: fold (start, finish, content,
mutated) over the annotations, then push Str / StrRedacted. -/
def emitSpan (map : FMap) (st : RState) (ts : TaggedString) : RState :=
  let folded := ts.tag.foldl
    (fun (acc : String × String × String × Bool) ann =>
      let m := map ann
      (acc.1 ++ m.1, acc.2.1 ++ m.2.2, acc.2.2.1 ++ m.2.1 ts.s, true))
    ("", "", "", false)
  let out := if folded.2.2.2
    then folded.1 ++ folded.2.2.1 ++ folded.2.1
    else folded.1 ++ ts.s ++ folded.2.1
  match st.stack with
  | id :: _ => { st with cmds := st.cmds ++ [Control.StrRedacted out id] }
  | [] => { st with cmds := st.cmds ++ [Control.Str out] }

/-- Processing of one span: marker scan first; a marker span stops here
(the caller breaks), otherwise the span is emitted. -/
def processSpan (map : FMap) (st : RState) (ts : TaggedString) :
    Option (Bool × RState) :=
  match scanMarkers st ts with
  | none => none
  | some (isM, st') =>
    if isM then some (true, st') else some (false, emitSpan map st' ts)

/-- One step of the span loop `for ts in line.tagged_strings()`; a previous
marker span froze the state (`break`). -/
def spanStep (map : FMap) (acc : Option (Bool × RState)) (ts : TaggedString) :
    Option (Bool × RState) :=
  match acc with
  | none => none
  | some (m, st) => if m then some (m, st) else processSpan map st ts

/-- The span loop over one line, starting from is_marker = false. -/
def lineSpansFold (map : FMap) (st : RState) (spans : List TaggedString) :
    Option (Bool × RState) :=
  spans.foldl (spanStep map) (some (false, st))

/-- One full line of just_render: process the spans, then push LF unless the
loop ended on a marker. -/
def processLine (map : FMap) (st : RState) (spans : List TaggedString) :
    Option RState :=
  match lineSpansFold map st spans with
  | none => none
  | some (m, st') =>
    if m then some st' else some { st' with cmds := st'.cmds ++ [Control.LF] }

/-- The whole line loop of just_render, from an empty command list and an
empty redaction stack, returning the final command list (`Ok(cmds)`). -/
def justRenderCore (map : FMap) (lines : List (List TaggedString)) :
    Option (List Control) :=
  match lines.foldlM (processLine map) (RState.mk [] []) with
  | none => none
  | some st => some st.cmds

/-- just_parse: parse only (the external parser is a black box supplied as a
parameter; it is out of scope per the spec). -/
def just_parse {R RT : Type} (parse : R → RT) (input : R) : RT :=
  parse input

/-- just_render: render a parsed tree at a width through the caller styling
map.  `render` stands for `input.render(width, RichDecorator::new())
.into_lines()`, which lives in the out-of-scope render module and is supplied
as a parameter. -/
def just_render {RT : Type} (render : RT → Nat → List (List TaggedString))
    (input : RT) (width : Nat) (map : FMap) : Option (List Control) :=
  justRenderCore map (render input width)

/-! ### custom_render: the duplicated pipeline

custom_render's body (ansi_colours.rs lines 138-238) repeats just_render's
line/span/annotation loops verbatim, preceded by the parse; the definitions
below transcribe that second copy on its own. -/

/-- The annotation step of custom_render's marker scan. -/
def customAnnStep (s : String) (acc : Bool × RState) (ann : RichAnn) :
    Option (Bool × RState) :=
  match ann with
  | .NoBreakBegin =>
    if s = "" then
      some (true, { acc.2 with cmds := acc.2.cmds ++ [Control.NoBreakBegin] })
    else none
  | .RedactedBegin _ id =>
    if s = "" then some (true, { acc.2 with stack := id :: acc.2.stack })
    else none
  | .Image src w h =>
    if 1 ≤ w * h then
      some (true, { acc.2 with cmds := acc.2.cmds ++ [Control.Image src w h] })
    else some acc
  | .RedactedEnd _ id =>
    if s = "" then
      match acc.2.stack with
      | [] => none
      | top :: rest =>
        if top = id then some (true, { acc.2 with stack := rest }) else none
    else none
  | .NoBreakEnd =>
    if s = "" then
      some (true, { acc.2 with cmds := acc.2.cmds ++ [Control.NoBreakEnd] })
    else none
  | .Custom typ values =>
    if typ = "audio" then
      match values with
      | [] => none
      | v :: _ => some (true, { acc.2 with cmds := acc.2.cmds ++ [Control.Audio v] })
    else some acc
  | _ => some acc

/-- The marker scan of custom_render. -/
def customScanMarkers (st : RState) (ts : TaggedString) : Option (Bool × RState) :=
  ts.tag.foldlM (customAnnStep ts.s) (false, st)

/-- The non-marker emission path of custom_render. -/
def customEmitSpan (map : FMap) (st : RState) (ts : TaggedString) : RState :=
  let folded := ts.tag.foldl
    (fun (acc : String × String × String × Bool) ann =>
      let m := map ann
      (acc.1 ++ m.1, acc.2.1 ++ m.2.2, acc.2.2.1 ++ m.2.1 ts.s, true))
    ("", "", "", false)
  let out := if folded.2.2.2
    then folded.1 ++ folded.2.2.1 ++ folded.2.1
    else folded.1 ++ ts.s ++ folded.2.1
  match st.stack with
  | id :: _ => { st with cmds := st.cmds ++ [Control.StrRedacted out id] }
  | [] => { st with cmds := st.cmds ++ [Control.Str out] }

/-- Span processing of custom_render. -/
def customProcessSpan (map : FMap) (st : RState) (ts : TaggedString) :
    Option (Bool × RState) :=
  match customScanMarkers st ts with
  | none => none
  | some (isM, st') =>
    if isM then some (true, st') else some (false, customEmitSpan map st' ts)

/-- Span-loop step of custom_render. -/
def customSpanStep (map : FMap) (acc : Option (Bool × RState))
    (ts : TaggedString) : Option (Bool × RState) :=
  match acc with
  | none => none
  | some (m, st) => if m then some (m, st) else customProcessSpan map st ts

/-- Span loop of one line in custom_render. -/
def customLineSpansFold (map : FMap) (st : RState) (spans : List TaggedString) :
    Option (Bool × RState) :=
  spans.foldl (customSpanStep map) (some (false, st))

/-- One full line of custom_render. -/
def customProcessLine (map : FMap) (st : RState) (spans : List TaggedString) :
    Option RState :=
  match customLineSpansFold map st spans with
  | none => none
  | some (m, st') =>
    if m then some st' else some { st' with cmds := st'.cmds ++ [Control.LF] }

/-- The whole line loop of custom_render. -/
def customRenderCore (map : FMap) (lines : List (List TaggedString)) :
    Option (List Control) :=
  match lines.foldlM (customProcessLine map) (RState.mk [] []) with
  | none => none
  | some st => some st.cmds

/-- custom_render: parse the input and run the (duplicated) pipeline.  As in
just_render, the external parser and the rich renderer are parameters. -/
def custom_render {R RT : Type} (parse : R → RT)
    (render : RT → Nat → List (List TaggedString)) (input : R) (width : Nat)
    (map : FMap) : Option (List Control) :=
  customRenderCore map (render (parse input) width)

/-! ### The page block builder (try_build_block) -/

/-- A block for pagination (struct PageBlock: ops and accumulated height). -/
structure PageBlock where
  inner : List Control
  height : Nat
deriving DecidableEq, Repr

/-- State of try_build_block: finished blocks, current block, no-break flag. -/
structure BuildState where
  blocks : List PageBlock
  block : PageBlock
  no_break : Bool
deriving DecidableEq, Repr

/-- One Control transition of try_build_block; `none` models the
`unreachable!` arms and the two nesting panics. -/
def buildStep (st : BuildState) (c : Control) : Option BuildState :=
  match c with
  | .Default => none
  | .RedactedBegin _ _ => none
  | .RedactedEnd _ => none
  | .LF =>
    let b : PageBlock := ⟨st.block.inner ++ [Control.LF], st.block.height + 1⟩
    if st.no_break then some { st with block := b }
    else some { st with blocks := st.blocks ++ [b], block := ⟨[], 0⟩ }
  | .NoBreakBegin =>
    if st.no_break then none
    else if st.block.inner.isEmpty then some { st with no_break := true }
    else some ⟨st.blocks ++ [st.block], ⟨[], 0⟩, true⟩
  | .NoBreakEnd =>
    if st.no_break then some ⟨st.blocks ++ [st.block], ⟨[], 0⟩, false⟩
    else none
  | .Image src w h =>
    let flushed := if st.block.inner.isEmpty then st.blocks
      else st.blocks ++ [st.block]
    some ⟨flushed ++ [⟨[Control.Image src w h], h⟩], ⟨[], 0⟩, st.no_break⟩
  | x => some { st with block := ⟨st.block.inner ++ [x], st.block.height⟩ }

/-- try_build_block: fold the controls from an empty state; the final pending
block is not pushed (as in the source). -/
def try_build_block (controls : List Control) : Option (List PageBlock) :=
  match controls.foldlM buildStep (BuildState.mk [] ⟨[], 0⟩ false) with
  | none => none
  | some st => some st.blocks

/-! ### Auxiliary definitions used by the verification theorems -/

/-- Concatenation of a list of strings, in order (push_str accumulation). -/
def strJoin (l : List String) : String := l.foldl (· ++ ·) ""

/-- Whether an annotation makes its span a marker span in the scan of
just_render: the four no-break/redaction markers, an Image with nonzero
area, and a Custom "audio" annotation. -/
def isMarkerAnn : RichAnn → Bool
  | .NoBreakBegin => true
  | .NoBreakEnd => true
  | .RedactedBegin _ _ => true
  | .RedactedEnd _ _ => true
  | .Image _ w h => decide (1 ≤ w * h)
  | .Custom typ _ => decide (typ = "audio")
  | _ => false

/-- The markers whose scan branch asserts that the span text is empty
(NoBreakBegin/NoBreakEnd/RedactedBegin/RedactedEnd; the Image assert is
commented out in the source and Custom "audio" never checks the text). -/
def isStrictMarker : RichAnn → Bool
  | .NoBreakBegin => true
  | .NoBreakEnd => true
  | .RedactedBegin _ _ => true
  | .RedactedEnd _ _ => true
  | _ => false

/-- A span is a marker span when any of its annotations is a marker. -/
def isMarkerSpan (ts : TaggedString) : Bool := ts.tag.any isMarkerAnn

/-- The span text that the amended C2 claim predicts: the raw text when no
annotation is active; otherwise the concatenated prefixes, then each
annotation's transform applied to the ORIGINAL span text with the results
concatenated in annotation order (not composed), then the concatenated
suffixes. -/
def amendedSpanText (map : FMap) (ts : TaggedString) : String :=
  if ts.tag.isEmpty then ts.s
  else strJoin (ts.tag.map fun a => (map a).1) ++
    strJoin (ts.tag.map fun a => (map a).2.1 ts.s) ++
    strJoin (ts.tag.map fun a => (map a).2.2)

/-- Lexicographic ≤ on the claim's (slack, width) pair. -/
def pair2Le (a b : Nat × Nat) : Prop := a.1 < b.1 ∨ (a.1 = b.1 ∧ a.2 ≤ b.2)

/-- Controls that try_build_block appends to the current block without any
flush: text runs, bells, audio, and (inside a no-break region) line feeds. -/
def appendable : Control → Bool
  | .Str _ => true
  | .StrRedacted _ _ => true
  | .Bell _ => true
  | .Audio _ => true
  | .LF => true
  | _ => false

/-- Sum of colspans of a resolved row. -/
def rowSpanSum (row : List (Nat × SizeEstimate)) : Nat :=
  (row.map Prod.fst).sum

/-- The resolved cells of one row whose column range contains column j, with
the source's running colno. -/
def rowIntersectingR (j : Nat) : Nat → List (Nat × SizeEstimate) →
    List (Nat × SizeEstimate)
  | _, [] => []
  | colno, c :: rest =>
    (if colno ≤ j ∧ j < colno + c.1 then [c] else []) ++
      rowIntersectingR j (colno + c.1) rest

/-- All resolved cells of a table intersecting column j, in row-major order. -/
def allIntersecting (rrows : List (List (Nat × SizeEstimate))) (j : Nat) :
    List (Nat × SizeEstimate) :=
  (rrows.map fun row => rowIntersectingR j 0 row).flatten

/-- A trivial styling map: no prefixes or suffixes, identity transform. -/
def mapId : FMap := fun _ => ("", fun s => s, "")

/-- A styling map whose transform appends an exclamation mark. -/
def map2 : FMap := fun _ => ("", fun s => s ++ "!", "")

/-- One row, one cell of colspan 2 containing six characters of text; at
target width 5 its initial column widths already sum below 5. -/
def cexTable4 : RenderTable :=
  RenderTable.new [RenderTableRow.mk [RenderTableCell.mk 2 [RenderNodeInfo.Text "abcdef"]]]

/-- One row, one cell of colspan 2 containing three characters of text
(cell estimate (3, 5)). -/
def cexTable7 : RenderTable :=
  RenderTable.new [RenderTableRow.mk [RenderTableCell.mk 2 [RenderNodeInfo.Text "abc"]]]
/-! ### Helper lemmas for the width-reduction loop -/

theorem lex3Le_iff (a b : Nat × Nat × Nat) : lex3Le a b = true ↔
    (a.1 < b.1 ∨ (a.1 = b.1 ∧ (a.2.1 < b.2.1 ∨ (a.2.1 = b.2.1 ∧ a.2.2 ≤ b.2.2)))) := by
  simp [lex3Le, Nat.blt_eq, Nat.ble_eq, Bool.or_eq_true, Bool.and_eq_true,
    Nat.beq_eq_true_eq]

theorem lex3Le_refl (a : Nat × Nat × Nat) : lex3Le a a = true := by
  rw [lex3Le_iff]; omega

theorem lex3Le_trans {a b c : Nat × Nat × Nat} (h1 : lex3Le a b = true)
    (h2 : lex3Le b c = true) : lex3Le a c = true := by
  rw [lex3Le_iff] at h1 h2 ⊢; omega

theorem lex3Le_or (a b : Nat × Nat × Nat) :
    lex3Le a b = true ∨ lex3Le b a = true := by
  rw [lex3Le_iff, lex3Le_iff]; omega

theorem mem_enumList {α : Type _} :
    ∀ (l : List α) (k i : Nat) (w : α),
      (i, w) ∈ enumList k l ↔ ∃ j, i = k + j ∧ l[j]? = some w := by
  intro l
  induction l with
  | nil => intro k i w; simp [enumList]
  | cons x xs ih =>
    intro k i w
    simp only [enumList, List.mem_cons, ih (k + 1), Prod.mk.injEq]
    constructor
    · rintro (⟨rfl, rfl⟩ | ⟨j, rfl, hj⟩)
      · exact ⟨0, by simp⟩
      · exact ⟨j + 1, by omega, by simpa using hj⟩
    · rintro ⟨j, rfl, hj⟩
      cases j with
      | zero => left; simp at hj; simp [hj]
      | succ j => right; exact ⟨j, by omega, by simpa using hj⟩

theorem pick_foldl (cs : List SizeEstimate) :
    ∀ (l : List (Nat × Nat)) (b : Nat × Nat),
      ∃ r, l.foldl (pick cs) (some b) = some r ∧ (r = b ∨ r ∈ l) ∧
        lex3Le (key3 cs b) (key3 cs r) = true ∧
        ∀ x ∈ l, lex3Le (key3 cs x) (key3 cs r) = true := by
  intro l
  induction l with
  | nil => intro b; exact ⟨b, rfl, Or.inl rfl, lex3Le_refl _, by simp⟩
  | cons x xs ih =>
    intro b
    show ∃ r, xs.foldl (pick cs) (pick cs (some b) x) = some r ∧ _
    rw [pick]
    by_cases h : lex3Le (key3 cs b) (key3 cs x) = true
    · rw [if_pos h]
      obtain ⟨r, h1, h2, h3, h4⟩ := ih x
      refine ⟨r, h1, ?_, lex3Le_trans h h3, ?_⟩
      · rcases h2 with rfl | h2
        · exact Or.inr (List.mem_cons_self _ _)
        · exact Or.inr (List.mem_cons_of_mem _ h2)
      · intro y hy
        rcases List.mem_cons.mp hy with rfl | hy
        · exact h3
        · exact h4 y hy
    · rw [if_neg h]
      have hx : lex3Le (key3 cs x) (key3 cs b) = true := by
        rcases lex3Le_or (key3 cs b) (key3 cs x) with h' | h'
        · exact absurd h' h
        · exact h'
      obtain ⟨r, h1, h2, h3, h4⟩ := ih b
      refine ⟨r, h1, ?_, h3, ?_⟩
      · rcases h2 with rfl | h2
        · exact Or.inl rfl
        · exact Or.inr (List.mem_cons_of_mem _ h2)
      · intro y hy
        rcases List.mem_cons.mp hy with rfl | hy
        · exact lex3Le_trans hx h3
        · exact h4 y hy

theorem maxByKey_spec (cs : List SizeEstimate) (ws : List Nat) (h : ws ≠ []) :
    ∃ i w, maxByKey cs ws = some (i, w) ∧ ws[i]? = some w ∧
      ∀ j v, ws[j]? = some v →
        lex3Le (key3 cs (j, v)) (key3 cs (i, w)) = true := by
  match ws, h with
  | x :: xs, _ =>
    have : maxByKey cs (x :: xs) = (enumList 1 xs).foldl (pick cs) (some (0, x)) := by
      rfl
    rw [this]
    obtain ⟨r, h1, h2, h3, h4⟩ := pick_foldl cs (enumList 1 xs) (0, x)
    refine ⟨r.1, r.2, by rw [h1], ?_, ?_⟩
    · rcases h2 with rfl | h2
      · simp
      · obtain ⟨j, hj1, hj⟩ := (mem_enumList xs 1 r.1 r.2).mp (by simpa using h2)
        have hj2 : r.1 = j + 1 := by omega
        rw [hj2]
        simpa using hj
    · intro j v hj
      cases j with
      | zero =>
        simp at hj
        subst hj
        exact h3
      | succ j =>
        have : (j + 1, v) ∈ enumList 1 xs :=
          (mem_enumList xs 1 (j + 1) v).mpr ⟨j, by omega, by simpa using hj⟩
        exact h4 _ this

theorem exists_pos_of_sum_pos :
    ∀ ws : List Nat, 0 < ws.sum → ∃ (j : Nat) (v : Nat), ws[j]? = some v ∧ 0 < v := by
  intro ws
  induction ws with
  | nil => simp
  | cons x xs ih =>
    intro h
    by_cases hx : 0 < x
    · exact ⟨0, x, by simp, hx⟩
    · have : 0 < xs.sum := by simp at h ⊢; omega
      obtain ⟨j, v, hj, hv⟩ := ih this
      exact ⟨j + 1, v, by simpa using hj, hv⟩

theorem sum_set_add :
    ∀ (ws : List Nat) (i w x : Nat), ws[i]? = some w →
      (ws.set i x).sum + w = ws.sum + x := by
  intro ws
  induction ws with
  | nil => intro i w x h; simp at h
  | cons y ys ih =>
    intro i w x h
    cases i with
    | zero => simp at h; subst h; simp [List.set]; omega
    | succ i =>
      simp at h
      have := ih i w x h
      simp [List.set, List.sum_cons]
      omega

theorem maxByKey_pos (cs : List SizeEstimate) (ws : List Nat)
    (h : 0 < ws.sum) :
    ∃ i w, maxByKey cs ws = some (i, w) ∧ ws[i]? = some w ∧ 0 < w ∧
      ∀ j v, ws[j]? = some v →
        lex3Le (key3 cs (j, v)) (key3 cs (i, w)) = true := by
  have hne : ws ≠ [] := by rintro rfl; simp at h
  obtain ⟨i, w, h1, h2, h3⟩ := maxByKey_spec cs ws hne
  refine ⟨i, w, h1, h2, ?_, h3⟩
  obtain ⟨j, v, hj, hv⟩ := exists_pos_of_sum_pos ws h
  have := h3 j v hj
  rw [lex3Le_iff] at this
  simp only [key3] at this
  omega

theorem reduceStep_sum (cs : List SizeEstimate) (ws : List Nat)
    (h : 0 < ws.sum) : (reduceStep cs ws).sum = ws.sum - 1 := by
  obtain ⟨i, w, h1, h2, h3, _⟩ := maxByKey_pos cs ws h
  rw [reduceStep, h1]
  have hgetD : ws.getD i 0 = w := by
    rw [List.getD_eq_getElem?_getD, h2]; rfl
  show (ws.set i (ws.getD i 0 - 1)).sum = ws.sum - 1
  rw [hgetD]
  have := sum_set_add ws i w (w - 1) h2
  omega

theorem reduceLoop_sum (cs : List SizeEstimate) (W : Nat) :
    ∀ (fuel : Nat) (ws : List Nat), ws.sum ≤ W + fuel →
      (reduceLoop cs W fuel ws).sum = min ws.sum W := by
  intro fuel
  induction fuel with
  | zero => intro ws h; rw [reduceLoop]; omega
  | succ fuel ih =>
    intro ws h
    rw [reduceLoop]
    by_cases hg : W < ws.sum
    · rw [if_pos hg]
      have hstep : (reduceStep cs ws).sum = ws.sum - 1 :=
        reduceStep_sum cs ws (by omega)
      have := ih (reduceStep cs ws) (by omega)
      rw [this, hstep]
      omega
    · rw [if_neg hg]; omega

/-- C4 (corrected): immediately after the width-reduction loop terminates,
the column widths sum to `min (initial sum) W` — exactly the target width
whenever the initial widths totalled at least the target, but possibly less
(the claim's unconditional equality fails; see the counterexample). -/
theorem claim_C4 (cs : List SizeEstimate) (W : Nat) (ws : List Nat) :
    (reduceWidths cs W ws).sum = min ws.sum W := by
  rw [reduceWidths]
  exact reduceLoop_sum cs W ws.sum ws (by omega)

/-- C1 (corrected): whenever the column widths sum to more than the target
width, the reduction loop decrements by exactly 1 the width of a column that
maximizes the pair (width - min_width saturating, width) — with ties broken
toward the LOWEST column index (the leftmost tied column is reduced first),
because the third key component is `usize::max_value() - colno`. -/
theorem claim_C1 (cs : List SizeEstimate) (ws : List Nat) (W : Nat)
    (hW : W < ws.sum) (hlen : ws.length ≤ USIZE_MAX) :
    ∃ i w, ws[i]? = some w ∧ 0 < w ∧
      reduceStep cs ws = ws.set i (w - 1) ∧
      (∀ j v, ws[j]? = some v →
        pair2Le (v - minWidthAt cs j, v) (w - minWidthAt cs i, w)) ∧
      (∀ j v, ws[j]? = some v →
        v - minWidthAt cs j = w - minWidthAt cs i → v = w → i ≤ j) := by
  obtain ⟨i, w, h1, h2, h3, hmax⟩ := maxByKey_pos cs ws (by omega)
  have hgetD : ws.getD i 0 = w := by rw [List.getD_eq_getElem?_getD, h2]; rfl
  have hstep : reduceStep cs ws = ws.set i (w - 1) := by
    rw [reduceStep, h1]
    show ws.set i (ws.getD i 0 - 1) = _
    rw [hgetD]
  have hilen : i < ws.length := by
    by_contra h'
    push_neg at h'
    rw [List.getElem?_eq_none h'] at h2
    cases h2
  refine ⟨i, w, h2, h3, hstep, ?_, ?_⟩
  · intro j v hj
    have hk := hmax j v hj
    rw [lex3Le_iff] at hk
    simp only [key3] at hk
    simp only [pair2Le]
    omega
  · intro j v hj he1 he2
    have hjlen : j < ws.length := by
      by_contra h'
      push_neg at h'
      rw [List.getElem?_eq_none h'] at hj
      cases hj
    have hk := hmax j v hj
    rw [lex3Le_iff] at hk
    simp only [key3] at hk
    omega

/-! ### Marker classification and pipeline lemmas -/

theorem annStep_flag (s : String) (acc : Bool × RState) (ann : RichAnn)
    (r : Bool × RState) (h : annStep s acc ann = some r) :
    r.1 = (acc.1 || isMarkerAnn ann) := by
  cases r with
  | mk rb rst =>
    cases ann with
    | RedactedEnd psk id =>
      simp only [annStep, isMarkerAnn] at h ⊢
      split at h
      · match hst : acc.2.stack, h with
        | top :: rest, h =>
          simp only [] at h
          split at h <;> simp_all
      · cases h
    | Custom typ values =>
      simp only [annStep, isMarkerAnn] at h ⊢
      split at h
      · match hv : values, h with
        | v :: vs, h =>
          simp only [] at h
          simp_all
      · simp_all
    | Image src w h' =>
      simp only [annStep, isMarkerAnn] at h ⊢
      split at h <;> simp_all
    | NoBreakBegin => simp only [annStep, isMarkerAnn] at h ⊢; split at h <;> simp_all
    | NoBreakEnd => simp only [annStep, isMarkerAnn] at h ⊢; split at h <;> simp_all
    | RedactedBegin psk id =>
      simp only [annStep, isMarkerAnn] at h ⊢; split at h <;> simp_all
    | Default => simp_all [annStep, isMarkerAnn]
    | Link u => simp_all [annStep, isMarkerAnn]
    | Emphasis => simp_all [annStep, isMarkerAnn]
    | Strong => simp_all [annStep, isMarkerAnn]
    | Strikeout => simp_all [annStep, isMarkerAnn]
    | Code => simp_all [annStep, isMarkerAnn]
    | Preformat b => simp_all [annStep, isMarkerAnn]
    | Colored r g b => simp_all [annStep, isMarkerAnn]
    | Bell => simp_all [annStep, isMarkerAnn]

theorem annStep_nonmarker (s : String) (acc : Bool × RState) (ann : RichAnn)
    (h : isMarkerAnn ann = false) : annStep s acc ann = some acc := by
  cases ann <;> simp_all [annStep, isMarkerAnn]

theorem annStep_strict (s : String) (acc : Bool × RState) (ann : RichAnn)
    (hm : isStrictMarker ann = true) (hs : s ≠ "") :
    annStep s acc ann = none := by
  cases ann <;> simp_all [annStep, isStrictMarker]

theorem foldlM_none_of_mem {α β : Type _} (f : β → α → Option β) :
    ∀ (l : List α) (b : β) (a : α), a ∈ l → (∀ b', f b' a = none) →
      l.foldlM f b = none := by
  intro l
  induction l with
  | nil => intro b a ha; simp at ha
  | cons x xs ih =>
    intro b a ha hnone
    rw [List.foldlM_cons]
    rcases List.mem_cons.mp ha with rfl | ha
    · rw [hnone b]; rfl
    · cases hfx : f b x with
      | none => rfl
      | some b1 => simpa [hfx] using ih b1 a ha hnone

theorem scan_flag (s : String) :
    ∀ (anns : List RichAnn) (acc : Bool × RState) (r : Bool × RState),
      List.foldlM (annStep s) acc anns = some r →
      r.1 = (acc.1 || anns.any isMarkerAnn) := by
  intro anns
  induction anns with
  | nil => intro acc r h; simp at h; simp [← h]
  | cons x xs ih =>
    intro acc r h
    rw [List.foldlM_cons] at h
    cases hfx : annStep s acc x with
    | none => rw [hfx] at h; cases h
    | some a1 =>
      rw [hfx] at h
      have h1 := ih a1 r h
      have h2 := annStep_flag s acc x a1 hfx
      simp [h1, h2, List.any_cons, Bool.or_assoc]

theorem scan_nonmarker (s : String) :
    ∀ (anns : List RichAnn) (acc : Bool × RState),
      (∀ a ∈ anns, isMarkerAnn a = false) →
      List.foldlM (annStep s) acc anns = some acc := by
  intro anns
  induction anns with
  | nil => intro acc _; rfl
  | cons x xs ih =>
    intro acc h
    rw [List.foldlM_cons, annStep_nonmarker s acc x (h x (List.mem_cons_self x xs))]
    exact ih acc fun a ha => h a (List.mem_cons_of_mem x ha)

theorem strJoin_foldl (l : List String) :
    ∀ a : String, l.foldl (· ++ ·) a = a ++ strJoin l := by
  induction l with
  | nil => intro a; simp [strJoin, String.append_empty]
  | cons x xs ih =>
    intro a
    show xs.foldl (· ++ ·) (a ++ x) = a ++ strJoin (x :: xs)
    rw [ih (a ++ x)]
    show a ++ x ++ strJoin xs = a ++ xs.foldl (· ++ ·) ("" ++ x)
    rw [String.empty_append, ih x, String.append_assoc]

theorem strJoin_cons (x : String) (xs : List String) :
    strJoin (x :: xs) = x ++ strJoin xs := by
  show xs.foldl (· ++ ·) ("" ++ x) = x ++ strJoin xs
  rw [String.empty_append, strJoin_foldl]

theorem emit_fold (map : FMap) (s : String) :
    ∀ (anns : List RichAnn) (p f c : String) (b : Bool),
      anns.foldl
        (fun (acc : String × String × String × Bool) ann =>
          let m := map ann
          (acc.1 ++ m.1, acc.2.1 ++ m.2.2, acc.2.2.1 ++ m.2.1 s, true))
        (p, f, c, b)
      = (p ++ strJoin (anns.map fun a => (map a).1),
         f ++ strJoin (anns.map fun a => (map a).2.2),
         c ++ strJoin (anns.map fun a => (map a).2.1 s),
         b || !anns.isEmpty) := by
  intro anns
  induction anns with
  | nil =>
    intro p f c b
    simp [strJoin, String.append_empty]
  | cons x xs ih =>
    intro p f c b
    rw [List.foldl_cons]
    show xs.foldl _ (p ++ (map x).1, f ++ (map x).2.2, c ++ (map x).2.1 s, true) = _
    rw [ih]
    simp [List.map_cons, strJoin_cons, List.isEmpty_cons, String.append_assoc,
      Bool.not_false, Bool.or_true, Prod.mk.injEq]

/-- C2 (corrected): for a span with no marker annotation, the emitted string
concatenates the annotations' prefixes, then EACH transform applied to the
original span text concatenated in annotation order (the transforms are not
composed), then the suffixes; the result is a Str when the redaction stack is
empty and otherwise a StrRedacted tagged with the top-of-stack id. -/
theorem claim_C2 (map : FMap) (st : RState) (ts : TaggedString)
    (h : ∀ a ∈ ts.tag, isMarkerAnn a = false) :
    processSpan map st ts = some (false,
      { st with cmds := st.cmds ++
        [match st.stack with
         | id :: _ => Control.StrRedacted (amendedSpanText map ts) id
         | [] => Control.Str (amendedSpanText map ts)] }) := by
  have hscan : scanMarkers st ts = some (false, st) :=
    scan_nonmarker ts.s ts.tag (false, st) h
  rw [processSpan, hscan]
  simp only [if_neg (Bool.false_ne_true)]
  congr 1
  rw [emitSpan, emit_fold map ts.s ts.tag "" "" "" false]
  simp only [String.empty_append, Bool.false_or]
  cases htag : ts.tag.isEmpty with
  | true =>
    have : ts.tag = [] := List.isEmpty_iff.mp htag
    simp only [amendedSpanText, htag, if_pos, Bool.not_true]
    rw [this]
    simp only [List.map_nil]
    cases st.stack <;> simp [strJoin, String.append_empty, String.empty_append]
  | false =>
    simp only [amendedSpanText, htag, Bool.not_false, if_true, Bool.false_or]
    cases st.stack <;> simp [String.append_assoc]

/-- C3 (corrected): a span with non-empty text carrying a NoBreakBegin,
NoBreakEnd, RedactedBegin or RedactedEnd marker is a fatal invariant error;
the Image and Custom-audio markers perform no such check (the Image assert is
commented out in the source — see the counterexample). -/
theorem claim_C3 (map : FMap) (st : RState) (ts : TaggedString)
    (hs : ts.s ≠ "") (hm : ∃ a ∈ ts.tag, isStrictMarker a = true) :
    processSpan map st ts = none := by
  obtain ⟨a, ha, hstrict⟩ := hm
  have hscan : scanMarkers st ts = none :=
    foldlM_none_of_mem (annStep ts.s) ts.tag (false, st) a ha
      (fun acc => annStep_strict ts.s acc a hstrict hs)
  rw [processSpan, hscan]

theorem processSpan_flag (map : FMap) (st : RState) (ts : TaggedString)
    (m : Bool) (st' : RState) (h : processSpan map st ts = some (m, st')) :
    m = isMarkerSpan ts := by
  rw [processSpan] at h
  cases hscan : scanMarkers st ts with
  | none => rw [hscan] at h; cases h
  | some a =>
    obtain ⟨ab, ast⟩ := a
    rw [hscan] at h
    have hflag : ab = isMarkerSpan ts := by
      have := scan_flag ts.s ts.tag (false, st) (ab, ast) hscan
      simpa [isMarkerSpan] using this
    simp only [] at h
    by_cases hm : ab = true
    · rw [if_pos hm] at h
      cases h
      rw [← hm, hflag]
    · rw [if_neg hm] at h
      cases h
      simp at hm
      rw [← hflag, hm]

theorem spanFold_none (map : FMap) :
    ∀ spans : List TaggedString, spans.foldl (spanStep map) none = none := by
  intro spans
  induction spans with
  | nil => rfl
  | cons ts rest ih => rw [List.foldl_cons]; exact ih

theorem spanFold_frozen (map : FMap) (st : RState) :
    ∀ spans : List TaggedString,
      spans.foldl (spanStep map) (some (true, st)) = some (true, st) := by
  intro spans
  induction spans with
  | nil => rfl
  | cons ts rest ih => rw [List.foldl_cons]; exact ih

theorem lineSpansFold_flag (map : FMap) :
    ∀ (spans : List TaggedString) (st : RState) (m : Bool) (st' : RState),
      lineSpansFold map st spans = some (m, st') →
      m = spans.any isMarkerSpan := by
  intro spans
  induction spans with
  | nil =>
    intro st m st' h
    simp only [lineSpansFold, List.foldl_nil, Option.some.injEq, Prod.mk.injEq] at h
    simp [← h.1]
  | cons ts rest ih =>
    intro st m st' h
    rw [lineSpansFold, List.foldl_cons] at h
    have hstep : spanStep map (some (false, st)) ts = processSpan map st ts := by
      simp [spanStep]
    rw [hstep] at h
    cases hps : processSpan map st ts with
    | none => rw [hps, spanFold_none] at h; cases h
    | some a =>
      rw [hps] at h
      have hflag := processSpan_flag map st ts a.1 a.2 (by rw [hps])
      by_cases hm : a.1 = true
      · have : a = (true, a.2) := by rw [← hm]
        rw [this, spanFold_frozen] at h
        cases h
        simp [List.any_cons, ← hflag, hm]
      · simp at hm
        have : a = (false, a.2) := by rw [← hm]
        rw [this] at h
        have := ih a.2 m st' h
        simp [List.any_cons, ← hflag, hm, this]

/-- C5 (corrected): span processing stops at the first marker span of a line
(so spans after it are not emitted), and a LineFeed is emitted after the line
if and only if the line contains NO marker span at all — not merely when the
line does not consist solely of a marker. -/
theorem claim_C5 (map : FMap) (st : RState) (spans : List TaggedString)
    (m : Bool) (st' : RState) (h : lineSpansFold map st spans = some (m, st')) :
    m = spans.any isMarkerSpan ∧
      processLine map st spans =
        some (if m then st'
          else { st' with cmds := st'.cmds ++ [Control.LF] }) := by
  refine ⟨lineSpansFold_flag map spans st m st' h, ?_⟩
  rw [processLine, h]
  cases m <;> simp

/-- C8 (corrected): while the no-break flag is set, every LF / Str /
StrRedacted / Bell / Audio control is appended to the current block with no
flush, so those controls between a matched NoBreakBegin/NoBreakEnd pair stay
in one block; an Image control however always flushes and can split the
pair's contents (see the counterexample). -/
theorem claim_C8 (st : BuildState) (c : Control) (hnb : st.no_break = true)
    (hc : appendable c = true) :
    buildStep st c = some ⟨st.blocks,
      ⟨st.block.inner ++ [c],
        st.block.height + (if c = Control.LF then 1 else 0)⟩,
      true⟩ := by
  obtain ⟨blocks, ⟨inner, height⟩, nb⟩ := st
  cases c <;> simp_all [buildStep, appendable]

/-! ### Scatter/gather equivalence for calc_size_estimate columns -/

theorem getD_set_self {α : Type _} (l : List α) (i : Nat) (v d : α)
    (h : i < l.length) : (l.set i v).getD i d = v := by
  rw [List.getD_eq_getElem?_getD, List.getElem?_set_eq_of_lt _ h]; rfl

theorem getD_set_of_ne {α : Type _} (l : List α) (i j : Nat) (v d : α)
    (h : i ≠ j) : (l.set i v).getD j d = l.getD j d := by
  rw [List.getD_eq_getElem?_getD, List.getD_eq_getElem?_getD,
    List.getElem?_set_ne h]

theorem getD_replicate {α : Type _} (n j : Nat) (d : α) :
    (List.replicate n d).getD j d = d := by
  rw [List.getD_eq_getElem?_getD, List.getElem?_replicate]
  split <;> rfl

theorem scatFold_length (sp : Nat) (cs : SizeEstimate) (colno : Nat) :
    ∀ (m : Nat) (szs : List SizeEstimate),
      ((List.range m).foldl (scatStep sp cs colno) szs).length = szs.length := by
  intro m
  induction m with
  | zero => intro szs; rfl
  | succ m ih =>
    intro szs
    rw [List.range_succ, List.foldl_append, List.foldl_cons, List.foldl_nil,
      scatStep, List.length_set, ih]

theorem scatFold_getD (sp : Nat) (cs : SizeEstimate) (colno : Nat) :
    ∀ (m : Nat) (szs : List SizeEstimate) (j : Nat), colno + m ≤ szs.length →
      ((List.range m).foldl (scatStep sp cs colno) szs).getD j ⟨0, 0⟩ =
        if colno ≤ j ∧ j < colno + m then colUpdate sp cs (szs.getD j ⟨0, 0⟩)
        else szs.getD j ⟨0, 0⟩ := by
  intro m
  induction m with
  | zero =>
    intro szs j _
    rw [if_neg (by omega)]
    rfl
  | succ m ih =>
    intro szs j h
    rw [List.range_succ, List.foldl_append, List.foldl_cons, List.foldl_nil]
    have hlen : ((List.range m).foldl (scatStep sp cs colno) szs).length =
        szs.length := scatFold_length sp cs colno m szs
    have hm : ((List.range m).foldl (scatStep sp cs colno) szs).getD (colno + m)
        ⟨0, 0⟩ = szs.getD (colno + m) ⟨0, 0⟩ := by
      rw [ih szs (colno + m) (by omega), if_neg (by omega)]
    by_cases hj : j = colno + m
    · subst hj
      rw [scatStep, getD_set_self _ _ _ _ (by omega), hm, if_pos (by omega)]
    · rw [scatStep, getD_set_of_ne _ _ _ _ _ (by omega),
        ih szs j (by omega)]
      by_cases hin : colno ≤ j ∧ j < colno + m
      · rw [if_pos hin, if_pos (by omega)]
      · rw [if_neg hin, if_neg (by omega)]

theorem rowScatterGo_spec :
    ∀ (row : List (Nat × SizeEstimate)) (colno : Nat)
      (szs : List SizeEstimate), colno + rowSpanSum row ≤ szs.length →
      ∃ out, rowScatterGo colno szs row = some out ∧
        out.length = szs.length ∧
        ∀ j, out.getD j ⟨0, 0⟩ =
          (rowIntersectingR j colno row).foldl
            (fun acc c => colUpdate c.1 c.2 acc) (szs.getD j ⟨0, 0⟩) := by
  intro row
  induction row with
  | nil =>
    intro colno szs _
    exact ⟨szs, rfl, rfl, fun j => by rw [rowIntersectingR, List.foldl_nil]⟩
  | cons c rest ih =>
    intro colno szs h
    have hspan : rowSpanSum (c :: rest) = c.1 + rowSpanSum rest := by
      rw [rowSpanSum, List.map_cons, List.sum_cons]; rfl
    have hbound : colno + c.1 ≤ szs.length := by
      rw [hspan] at h; omega
    have hcell : cellScatterR c.1 c.2 colno szs =
        some ((List.range c.1).foldl (scatStep c.1 c.2 colno) szs) := by
      rw [cellScatterR]
      by_cases hsp : c.1 = 0
      · rw [if_pos hsp, hsp]
        rfl
      · rw [if_neg hsp, if_pos hbound]
    set szs1 := (List.range c.1).foldl (scatStep c.1 c.2 colno) szs with hszs1
    have hlen1 : szs1.length = szs.length := scatFold_length _ _ _ _ _
    obtain ⟨out, h1, h2, h3⟩ := ih (colno + c.1) szs1 (by rw [hlen1]; rw [hspan] at h; omega)
    refine ⟨out, ?_, by rw [h2, hlen1], ?_⟩
    · rw [rowScatterGo, hcell]
      exact h1
    · intro j
      rw [h3 j, rowIntersectingR, List.foldl_append]
      have hget1 : szs1.getD j ⟨0, 0⟩ =
          if colno ≤ j ∧ j < colno + c.1 then colUpdate c.1 c.2 (szs.getD j ⟨0, 0⟩)
          else szs.getD j ⟨0, 0⟩ := scatFold_getD _ _ _ _ _ _ hbound
      by_cases hin : colno ≤ j ∧ j < colno + c.1
      · rw [if_pos hin, List.foldl_cons, List.foldl_nil, hget1, if_pos hin]
      · rw [if_neg hin, List.foldl_nil, hget1, if_neg hin]

theorem calcColumnsGo_spec :
    ∀ (rrows : List (List (Nat × SizeEstimate))) (szs : List SizeEstimate),
      (∀ row ∈ rrows, rowSpanSum row ≤ szs.length) →
      ∃ out, calcColumnsGo szs rrows = some out ∧
        out.length = szs.length ∧
        ∀ j, out.getD j ⟨0, 0⟩ =
          (allIntersecting rrows j).foldl
            (fun acc c => colUpdate c.1 c.2 acc) (szs.getD j ⟨0, 0⟩) := by
  intro rrows
  induction rrows with
  | nil =>
    intro szs _
    exact ⟨szs, rfl, rfl, fun j => by rw [allIntersecting]; simp⟩
  | cons row rest ih =>
    intro szs h
    obtain ⟨mid, h1, h2, h3⟩ := rowScatterGo_spec row 0 szs
      (by have := h row (List.mem_cons_self row rest); omega)
    obtain ⟨out, h4, h5, h6⟩ := ih mid
      (fun r hr => by rw [h2]; exact h r (List.mem_cons_of_mem row hr))
    refine ⟨out, ?_, by rw [h5, h2], ?_⟩
    · rw [calcColumnsGo, h1]
      exact h4
    · intro j
      have hsplit : allIntersecting (row :: rest) j =
          rowIntersectingR j 0 row ++ allIntersecting rest j := by
        rw [allIntersecting, allIntersecting, List.map_cons]; rfl
      rw [h6 j, h3 j, hsplit, List.foldl_append]

theorem foldl_colUpdate_size (l : List (Nat × SizeEstimate)) :
    ∀ a : SizeEstimate,
      (l.foldl (fun acc c => colUpdate c.1 c.2 acc) a).size =
        a.size + (l.map fun c => c.2.size / c.1).sum := by
  induction l with
  | nil => intro a; simp
  | cons c rest ih =>
    intro a
    rw [List.foldl_cons, ih, List.map_cons, List.sum_cons]
    show (colUpdate c.1 c.2 a).size + _ = _
    rw [colUpdate]
    show a.size + c.2.size / c.1 + _ = _
    omega

/-- C7 (corrected): the table size estimate aggregates, per column, a fold
over the intersecting cells in row-major order where each cell contributes
`size/colspan` additively (as claimed) but updates the min_width as
`max(accumulated_min_width / colspan, cell.min_width)` — the ACCUMULATOR is
divided and the cell's min_width is NOT divided, unlike the claimed
`max(cell.min_width / colspan)`; total size is the sum of column sizes and
total min_width is the sum of column min_widths plus (column_count - 1). -/
theorem claim_C7 (n : Nat) (rrows : List (List (Nat × SizeEstimate)))
    (h : ∀ row ∈ rrows, rowSpanSum row ≤ n) :
    ∃ szs, calcColumnsR n rrows = some szs ∧ szs.length = n ∧
      (∀ j, szs.getD j ⟨0, 0⟩ =
        (allIntersecting rrows j).foldl
          (fun acc c => colUpdate c.1 c.2 acc) ⟨0, 0⟩) ∧
      (∀ j, (szs.getD j ⟨0, 0⟩).size =
        ((allIntersecting rrows j).map fun c => c.2.size / c.1).sum) ∧
      calc_size_estimateR n rrows =
        (if (szs.map SizeEstimate.min_width).sum + n = 0 then none
         else some ⟨(szs.map SizeEstimate.size).sum,
           (szs.map SizeEstimate.min_width).sum + n - 1⟩) := by
  obtain ⟨szs, h1, h2, h3⟩ := calcColumnsGo_spec rrows (List.replicate n ⟨0, 0⟩)
    (by intro row hr; rw [List.length_replicate]; exact h row hr)
  have h3' : ∀ j, szs.getD j ⟨0, 0⟩ =
      (allIntersecting rrows j).foldl (fun acc c => colUpdate c.1 c.2 acc)
        ⟨0, 0⟩ := by
    intro j
    rw [h3 j, getD_replicate]
  refine ⟨szs, h1, by rw [h2, List.length_replicate], h3', ?_, ?_⟩
  · intro j
    rw [h3' j, foldl_colUpdate_size]
    simp
  · rw [calc_size_estimateR, calcColumnsR, h1]

/-! ### Claim C9 and C10 theorems -/

/-- C9 (confirmed): RenderTable::new permits a table whose rows all have zero
cells; its num_columns is 0, and calc_size_estimate's
`min_width sum + num_columns - 1` then underflows an unsigned zero, so the
panic branch (modelled as none) is reachable and get_size_estimate is not
total at zero columns. -/
theorem claim_C9 :
    (RenderTable.new [RenderTableRow.mk []]).num_columns = 0 ∧
      RenderTable.calc_size_estimate (RenderTable.new [RenderTableRow.mk []])
        = none := by
  exact ⟨rfl, by decide⟩

/-- C10 (confirmed): custom_render is exactly the composition of the parser
and just_render: for every parser, rich renderer, input, width and styling
map, the two duplicated pipelines produce identical results. -/
theorem claim_C10 {R RT : Type} (parse : R → RT)
    (render : RT → Nat → List (List TaggedString)) (input : R) (width : Nat)
    (map : FMap) :
    custom_render parse render input width map
      = just_render render (just_parse parse input) width map := rfl

/-! ### Counterexamples refuting the claims as frozen -/

/-- C1 counterexample: with equal slacks and widths (two columns of width 3,
min_width 0, target 5) the loop decrements the LEFTMOST column, producing
[2, 3]; the claim's rightmost tie-break predicts [3, 2]. -/
theorem claim_C1_cex :
    reduceWidths [⟨3, 0⟩, ⟨3, 0⟩] 5 [3, 3] = [2, 3] ∧
      ([2, 3] : List Nat) ≠ [3, 2] := by
  exact ⟨by decide, by decide⟩

/-- C2 counterexample: two annotations whose transform appends "!" emit
"a!a!" (each transform applied to the original text, concatenated), while the
claimed chaining of transforms would give "a!!". -/
theorem claim_C2_cex :
    processSpan map2 ⟨[], []⟩ ⟨"a", [RichAnn.Emphasis, RichAnn.Strong]⟩
        = some (false, ⟨[Control.Str "a!a!"], []⟩) ∧
      (map2 RichAnn.Strong).2.1 ((map2 RichAnn.Emphasis).2.1 "a") = "a!!" ∧
      ("a!a!" : String) ≠ "a!!" := by
  exact ⟨by decide, by decide, by decide⟩

/-- C3 counterexample: a span with NON-EMPTY text carrying an Image marker of
nonzero area is accepted (the Image Control is emitted and no invariant error
is raised), refuting "this holds for every marker kind, including Image
markers". -/
theorem claim_C3_cex :
    processSpan mapId ⟨[], []⟩ ⟨"x", [RichAnn.Image "s" 1 1]⟩
      = some (true, ⟨[Control.Image "s" 1 1], []⟩) := by
  decide

/-- C4 counterexample: a table with a nonzero column size whose widths sum to
4 < 5 immediately after the reduction loop (integer flooring leaves the
initial widths below the target and the loop never runs). -/
theorem claim_C4_cex :
    tableColSizes cexTable4 = some [⟨3, 2⟩, ⟨3, 2⟩] ∧
      (3 : Nat) ≠ 0 ∧
      widthsAfterReduce cexTable4 5 = some [2, 2] ∧
      ([2, 2] : List Nat).sum ≠ 5 := by
  exact ⟨by decide, by decide, by decide, by decide⟩

/-- C5 counterexample: a line holding a marker span followed by a non-marker
span emits neither the non-marker span nor a LineFeed, refuting "a line
containing both non-marker spans and a marker span still ends with a
LineFeed, and its non-marker spans are all emitted". -/
theorem claim_C5_cex :
    processLine mapId ⟨[], []⟩ [⟨"", [RichAnn.NoBreakBegin]⟩, ⟨"hi", []⟩]
        = some ⟨[Control.NoBreakBegin], []⟩ ∧
      Control.Str "hi" ∉ [Control.NoBreakBegin] ∧
      Control.LF ∉ [Control.NoBreakBegin] := by
  exact ⟨by decide, by decide, by decide⟩

/-- C6 counterexample: the attribute string "0" parses successfully to 0, so
the resulting colspan is 0, refuting both the `colspan ≥ 1` invariant and the
claimed fallback to 1 for "0". -/
theorem claim_C6_cex :
    (td_to_render_tree [("colspan", "0")] []).colspan = 0 ∧
      ¬ 1 ≤ (td_to_render_tree [("colspan", "0")] []).colspan := by
  exact ⟨by decide, by decide⟩

/-- C7 counterexample: one cell of colspan 2 with estimate (3, 5) yields
total min_width 11 (each column gets max(0/2, 5) = 5, plus one separator),
while the claimed per-cell division predicts 5/2 + 5/2 + (2-1) = 5. -/
theorem claim_C7_cex :
    RenderTable.calc_size_estimate cexTable7 = some ⟨2, 11⟩ ∧
      (5 / 2 + 5 / 2 + (2 - 1) : Nat) = 5 ∧
      (11 : Nat) ≠ 5 := by
  exact ⟨by decide, by decide, by decide⟩

/-- C8 counterexample: in NoBreakBegin, Str "a", Image, Str "b", NoBreakEnd —
a properly matched, non-nested, accepted stream — the two Str controls
strictly between the pair end up in different blocks because the Image
flushes even inside the no-break region. -/
theorem claim_C8_cex :
    try_build_block [Control.NoBreakBegin, Control.Str "a",
        Control.Image "s" 9 1, Control.Str "b", Control.NoBreakEnd]
      = some [⟨[Control.Str "a"], 0⟩, ⟨[Control.Image "s" 9 1], 1⟩,
          ⟨[Control.Str "b"], 0⟩] ∧
      ¬ ∃ b ∈ [(⟨[Control.Str "a"], 0⟩ : PageBlock),
          ⟨[Control.Image "s" 9 1], 1⟩, ⟨[Control.Str "b"], 0⟩],
        Control.Str "a" ∈ b.inner ∧ Control.Str "b" ∈ b.inner := by
  exact ⟨by decide, by decide⟩

/-! ### Witnesses instantiating the hypotheses of the claim theorems -/

/-- C1 witness at the one-column list [2] with target width 0. -/
theorem claim_C1_witness :
    ∃ i w, ([2] : List Nat)[i]? = some w ∧ 0 < w ∧
      reduceStep [] [2] = ([2] : List Nat).set i (w - 1) ∧
      (∀ j v, ([2] : List Nat)[j]? = some v →
        pair2Le (v - minWidthAt [] j, v) (w - minWidthAt [] i, w)) ∧
      (∀ j v, ([2] : List Nat)[j]? = some v →
        v - minWidthAt [] j = w - minWidthAt [] i → v = w → i ≤ j) :=
  claim_C1 [] [2] 0 (by decide) (by decide)

/-- C2 witness on a single non-marker annotation. -/
theorem claim_C2_witness :
    processSpan map2 ⟨[], []⟩ ⟨"a", [RichAnn.Emphasis]⟩ =
      some (false,
        ⟨[Control.Str (amendedSpanText map2 ⟨"a", [RichAnn.Emphasis]⟩)], []⟩) :=
  claim_C2 map2 ⟨[], []⟩ ⟨"a", [RichAnn.Emphasis]⟩ (by decide)

/-- C3 witness: a NoBreakBegin marker span with non-empty text panics. -/
theorem claim_C3_witness :
    processSpan mapId ⟨[], []⟩ ⟨"x", [RichAnn.NoBreakBegin]⟩ = none :=
  claim_C3 mapId ⟨[], []⟩ ⟨"x", [RichAnn.NoBreakBegin]⟩ (by decide)
    ⟨RichAnn.NoBreakBegin, by decide, by decide⟩

/-- C5 witness on a one-span marker-free line. -/
theorem claim_C5_witness :
    (false = ([(⟨"a", []⟩ : TaggedString)] : List TaggedString).any isMarkerSpan) ∧
      processLine mapId ⟨[], []⟩ [⟨"a", []⟩] =
        some (if false then (⟨[Control.Str "a"], []⟩ : RState)
          else ⟨[Control.Str "a", Control.LF], []⟩) :=
  claim_C5 mapId ⟨[], []⟩ [⟨"a", []⟩] false ⟨[Control.Str "a"], []⟩ (by decide)

/-- C7 witness on a single-row, single-cell (colspan 2) resolved table. -/
theorem claim_C7_witness :
    ∃ szs, calcColumnsR 2 [[(2, ⟨6, 5⟩)]] = some szs ∧ szs.length = 2 ∧
      (∀ j, szs.getD j ⟨0, 0⟩ =
        (allIntersecting [[(2, ⟨6, 5⟩)]] j).foldl
          (fun acc c => colUpdate c.1 c.2 acc) ⟨0, 0⟩) ∧
      (∀ j, (szs.getD j ⟨0, 0⟩).size =
        ((allIntersecting [[(2, ⟨6, 5⟩)]] j).map fun c => c.2.size / c.1).sum) ∧
      calc_size_estimateR 2 [[(2, ⟨6, 5⟩)]] =
        (if (szs.map SizeEstimate.min_width).sum + 2 = 0 then none
         else some ⟨(szs.map SizeEstimate.size).sum,
           (szs.map SizeEstimate.min_width).sum + 2 - 1⟩) :=
  claim_C7 2 [[(2, ⟨6, 5⟩)]] (by decide)

/-- C8 witness: a Str control inside a no-break region. -/
theorem claim_C8_witness :
    buildStep ⟨[], ⟨[], 0⟩, true⟩ (Control.Str "a") =
      some ⟨[], ⟨[Control.Str "a"],
        0 + (if Control.Str "a" = Control.LF then 1 else 0)⟩, true⟩ :=
  claim_C8 ⟨[], ⟨[], 0⟩, true⟩ (Control.Str "a") rfl (by decide)

/-! ### Claim C6: colspan parsing -/

/-- C6 (corrected): a missing colspan attribute defaults to 1 and an
unparseable value (parse error, including negatives and overflow) falls back
to 1, but the string "0" parses successfully to 0 and is kept, so the
resulting colspan can be 0 — the claimed `colspan ≥ 1` invariant fails. -/
theorem claim_C6 (content : List RenderNodeInfo) (v : String) :
    (td_to_render_tree [] content).colspan = 1 ∧
      (parseUsize v = none →
        (td_to_render_tree [("colspan", v)] content).colspan = 1) ∧
      (td_to_render_tree [("colspan", "0")] content).colspan = 0 := by
  refine ⟨rfl, ?_, ?_⟩
  · intro h
    simp [td_to_render_tree, RenderTableCell.colspan, h]
  · simp [td_to_render_tree, RenderTableCell.colspan]
    rfl

/-- C6 witness: no attribute, the unparseable "x", and the literal "0". -/
theorem claim_C6_witness :
    (td_to_render_tree [] []).colspan = 1 ∧
      (td_to_render_tree [("colspan", "x")] []).colspan = 1 ∧
      (td_to_render_tree [("colspan", "0")] []).colspan = 0 :=
  ⟨(claim_C6 [] "x").1, (claim_C6 [] "x").2.1 (by decide),
    (claim_C6 [] "x").2.2⟩
